import Mathlib

/-!
Shallow embedding of `wplace-heatmap` (`src/main.go`) and verification of the
frozen claims about it.

Modelling conventions:
- Go strings are `List Char` (`GoStr`); `strings.Split` with a one-character
  separator is `splitChar`; `strconv.Atoi` is `atoi` (idealized to unbounded
  integers: the int64 range check of Go's `Atoi` is not modelled, no claim
  depends on it).
- Go's integer division truncates toward zero; it is embedded as `goDiv`.
- Errors are a structured inductive `ParseErr` carrying exactly the data the
  Go error message interpolates.
-/

abbrev GoStr := List Char

/-- `strings.Split s sep` for a single-character separator, Go semantics:
`Split "" sep = [""]`, and the separator is not kept. -/
def splitChar : GoStr → Char → List GoStr
  | [], _ => [[]]
  | c :: rest, sep =>
    if c = sep then [] :: splitChar rest sep
    else
      match splitChar rest sep with
      | [] => [[c]]
      | t :: ts => (c :: t) :: ts

/-- Numeric value of a digit string (most significant first). -/
def digitsToNat (ds : List Char) : Nat :=
  ds.foldl (fun n c => n * 10 + (c.toNat - Char.toNat '0')) 0

/-- Helper for `atoi`: parse an unsigned digit string, negating if `neg`. -/
def atoiDigits (ds : List Char) (neg : Bool) : Option Int :=
  if ds = [] then none
  else if ds.all Char.isDigit then
    some (if neg then -(digitsToNat ds : Int) else (digitsToNat ds : Int))
  else none

/-- `strconv.Atoi`: optional sign, then one or more ASCII digits.
(The int64 range check is not modelled.) -/
def atoi (s : GoStr) : Option Int :=
  match s with
  | [] => none
  | c :: rest =>
    if c = '+' then atoiDigits rest false
    else if c = '-' then atoiDigits rest true
    else atoiDigits s false

/-- `x, _ := strconv.Atoi(s)`: Go's `Atoi` returns 0 together with the
discarded syntax error. -/
def atoi0 (s : GoStr) : Int := (atoi s).getD 0

/-- Structured counterpart of the Go `error` values produced while parsing
region inputs; each constructor carries what the message interpolates. -/
inductive ParseErr where
  | atoiError (tok : GoStr)
  | invalidFullsize (input : GoStr)
  | invalidTileRangeFormat (input : GoStr)
  | invalidTileRangePoints (input : GoStr)
  | invalidSingleTile (input : GoStr)
deriving DecidableEq, Repr

/-- First-error-wins `Atoi` over a token list, mirroring the
`for i, p := range parts` loop in `parseFullsize`. -/
def atoiList : List GoStr → Except ParseErr (List Int)
  | [] => .ok []
  | t :: ts =>
    match atoi t with
    | none => .error (.atoiError t)
    | some v =>
      match atoiList ts with
      | .error e => .error e
      | .ok vs => .ok (v :: vs)

def TileSize : Int := 1000

/-- The Go swap idiom `if x1 > x2 { x1, x2 = x2, x1 }` as a function. -/
def sortPair (u v : Int) : Int × Int := if u > v then (v, u) else (u, v)

/-- Body of the 8-token case of `parseFullsize`: two corner points,
normalized per axis, yielding `(startX, startY, width, height)`. -/
def fullsize8 (v0 v1 v2 v3 v4 v5 v6 v7 : Int) : Int × Int × Int × Int :=
  let x1 := v0 * TileSize + v2
  let y1 := v1 * TileSize + v3
  let x2 := v4 * TileSize + v6
  let y2 := v5 * TileSize + v7
  let p := sortPair x1 x2
  let q := sortPair y1 y2
  (p.1, q.1, p.2 - p.1, q.2 - q.1)

/-- `parseFullsize` from `src/main.go`: returns `(startX, startY, width,
height)`. 6 tokens: origin `tileX·TileSize+pixelX`, literal width/height.
8 tokens: two corner points, normalized by swapping so the smaller
coordinate becomes the origin. Any other token count is an error. -/
def parseFullsize (fs : GoStr) : Except ParseErr (Int × Int × Int × Int) :=
  match splitChar fs '-' with
  | [p0, p1, p2, p3, p4, p5] =>
    match atoiList [p0, p1, p2, p3, p4, p5] with
    | .error e => .error e
    | .ok vals =>
      match vals with
      | [v0, v1, v2, v3, v4, v5] =>
        .ok (v0 * TileSize + v2, v1 * TileSize + v3, v4, v5)
      | _ => .error (.invalidFullsize fs)
  | [p0, p1, p2, p3, p4, p5, p6, p7] =>
    match atoiList [p0, p1, p2, p3, p4, p5, p6, p7] with
    | .error e => .error e
    | .ok vals =>
      match vals with
      | [v0, v1, v2, v3, v4, v5, v6, v7] =>
        .ok (fullsize8 v0 v1 v2 v3 v4 v5 v6 v7)
      | _ => .error (.invalidFullsize fs)
  | _ => .error (.invalidFullsize fs)

/-- `parseTileRange` from `src/main.go`: `minTX-minTY_maxTX-maxTY`, corners
normalized per axis. `Atoi` errors on the four fields are DISCARDED
(`x1, _ := strconv.Atoi(...)`), so a malformed field silently becomes 0. -/
def parseTileRange (tr : GoStr) : Except ParseErr (Int × Int × Int × Int) :=
  match splitChar tr '_' with
  | [part0, part1] =>
    match splitChar part0 '-', splitChar part1 '-' with
    | [a0, a1], [b0, b1] =>
      let p := sortPair (atoi0 a0) (atoi0 b0)
      let q := sortPair (atoi0 a1) (atoi0 b1)
      .ok (p.1, q.1, p.2, q.2)
    | _, _ => .error (.invalidTileRangePoints tr)
  | _ => .error (.invalidTileRangeFormat tr)

/-- The single-tile branch of `main`: `tileX-tileY`; `Atoi` errors are
discarded just as in `parseTileRange`. -/
def parseSingleTile (s : GoStr) : Except ParseErr (Int × Int) :=
  match splitChar s '-' with
  | [t0, t1] => .ok (atoi0 t0, atoi0 t1)
  | _ => .error (.invalidSingleTile s)

/-- The absolute pixel rectangle `main` works with:
`startAbsX, startAbsY, width, height`. -/
structure Region where
  startX : Int
  startY : Int
  width : Int
  height : Int
deriving DecidableEq, Repr

/-- The four mutually exclusive region encodings accepted by `main`
(`-fullsize` covers both the 6- and the 8-token form). -/
inductive RegionInput where
  | fullsize (s : GoStr)
  | tileRange (s : GoStr)
  | singleTile (s : GoStr)
deriving DecidableEq, Repr

/-- The Coordinate Translator: the region-selection branches of `main`
(lines 298-329) expressed as one function from the chosen encoding to the
Region. -/
def translateRegion : RegionInput → Except ParseErr Region
  | .fullsize s =>
    match parseFullsize s with
    | .error e => .error e
    | .ok (sx, sy, w, h) => .ok ⟨sx, sy, w, h⟩
  | .tileRange s =>
    match parseTileRange s with
    | .error e => .error e
    | .ok (minTX, minTY, maxTX, maxTY) =>
      .ok ⟨minTX * TileSize, minTY * TileSize,
           (maxTX - minTX + 1) * TileSize, (maxTY - minTY + 1) * TileSize⟩
  | .singleTile s =>
    match parseSingleTile s with
    | .error e => .error e
    | .ok (tx, ty) => .ok ⟨tx * TileSize, ty * TileSize, TileSize, TileSize⟩

/-- Go's `/` on integers: truncated division (rounds toward zero). -/
def goDiv (a b : Int) : Int := Int.tdiv a b

/-- The derived inclusive tile-index range of `main` lines 331-334:
`(minTileX, minTileY, maxTileX, maxTileY)`. -/
def tileRangeOf (r : Region) : Int × Int × Int × Int :=
  (goDiv r.startX TileSize, goDiv r.startY TileSize,
   goDiv (r.startX + r.width - 1) TileSize,
   goDiv (r.startY + r.height - 1) TileSize)

example : splitChar "0-0-0-0-0-0".toList '-' =
    [['0'], ['0'], ['0'], ['0'], ['0'], ['0']] := by decide

example : parseFullsize "12-3-45-6-78-9".toList = .ok (12045, 3006, 78, 9) := by rfl

example : parseFullsize "0-0-5-5-1-0-2-8".toList = .ok (5, 5, 997, 3) := by rfl

example : parseTileRange "1818-806_1819-806".toList = .ok (1818, 806, 1819, 806) := by rfl

example : parseTileRange "1-a_2-3".toList = .ok (1, 0, 2, 3) := by rfl

example : translateRegion (.fullsize "0-0-0-0-0-0".toList) = .ok ⟨0, 0, 0, 0⟩ := by rfl

example : goDiv (-1) 1000 = 0 := by decide

example : Int.fdiv (-1) 1000 = -1 := by decide

/-! ### Lemmas about `splitChar`, `atoi`, `atoiList` -/

theorem splitChar_ne_nil (s : GoStr) (sep : Char) : splitChar s sep ≠ [] := by
  induction s with
  | nil => simp [splitChar]
  | cons c rest ih =>
    unfold splitChar
    by_cases h : c = sep
    · simp [h]
    · simp only [h, if_false]
      cases hs : splitChar rest sep with
      | nil => simp
      | cons t ts => simp

theorem splitChar_cons_ne {c sep : Char} (rest : GoStr) (h : ¬ c = sep)
    {t : GoStr} {ts : List GoStr} (hs : splitChar rest sep = t :: ts) :
    splitChar (c :: rest) sep = (c :: t) :: ts := by
  unfold splitChar
  rw [if_neg h, hs]

theorem splitChar_append (xs ys : GoStr) (sep : Char) :
    splitChar (xs ++ sep :: ys) sep = splitChar xs sep ++ splitChar ys sep := by
  induction xs with
  | nil => simp [splitChar]
  | cons c rest ih =>
    by_cases h : c = sep
    · simp [splitChar, h, ih]
    · cases hs : splitChar rest sep with
      | nil => exact absurd hs (splitChar_ne_nil rest sep)
      | cons t ts =>
        have hmid : splitChar (rest ++ sep :: ys) sep
            = t :: (ts ++ splitChar ys sep) := by
          rw [ih, hs, List.cons_append]
        rw [List.cons_append, splitChar_cons_ne (rest ++ sep :: ys) h hmid,
            splitChar_cons_ne rest h hs, List.cons_append]

theorem not_mem_of_mem_splitChar {s : GoStr} {sep : Char} {t : GoStr}
    (ht : t ∈ splitChar s sep) : sep ∉ t := by
  induction s generalizing t with
  | nil =>
    simp [splitChar] at ht
    simp [ht]
  | cons c rest ih =>
    unfold splitChar at ht
    by_cases h : c = sep
    · simp only [h, if_true] at ht
      rcases List.mem_cons.mp ht with rfl | hmem
      · simp
      · exact ih hmem
    · simp only [h, if_false] at ht
      cases hs : splitChar rest sep with
      | nil => exact absurd hs (splitChar_ne_nil rest sep)
      | cons u us =>
        rw [hs] at ht
        have humem : u ∈ splitChar rest sep := by
          rw [hs]; exact List.mem_cons_self u us
        rcases List.mem_cons.mp ht with rfl | hmem
        · intro hc
          rcases List.mem_cons.mp hc with rfl | hc2
          · exact h rfl
          · exact ih humem hc2
        · have htmem : t ∈ splitChar rest sep := by
            rw [hs]; exact List.mem_cons_of_mem u hmem
          exact ih htmem

theorem splitChar_of_not_mem {xs : GoStr} {sep : Char} (h : sep ∉ xs) :
    splitChar xs sep = [xs] := by
  induction xs with
  | nil => simp [splitChar]
  | cons c rest ih =>
    have hc : ¬ c = sep := fun hcs => h (hcs ▸ List.mem_cons_self c rest)
    have hrest : sep ∉ rest := fun hm => h (List.mem_cons_of_mem c hm)
    unfold splitChar
    simp only [hc, if_false, ih hrest]

theorem atoiDigits_false_nonneg {ds : List Char} {v : Int}
    (h : atoiDigits ds false = some v) : 0 ≤ v := by
  unfold atoiDigits at h
  split at h
  · exact absurd h (by simp)
  · split at h
    · simp at h
      omega
    · exact absurd h (by simp)

theorem atoi_nonneg {t : GoStr} (hmem : ('-' : Char) ∉ t) {v : Int}
    (hv : atoi t = some v) : 0 ≤ v := by
  unfold atoi at hv
  cases t with
  | nil => exact absurd hv (by simp)
  | cons c rest =>
    by_cases hp : c = '+'
    · simp only [hp, if_true] at hv
      exact atoiDigits_false_nonneg hv
    · have hm : ¬ c = '-' := fun hcs => hmem (hcs ▸ List.mem_cons_self c rest)
      simp only [hp, hm, if_false] at hv
      exact atoiDigits_false_nonneg hv

theorem atoi0_nonneg {t : GoStr} (hmem : ('-' : Char) ∉ t) : 0 ≤ atoi0 t := by
  unfold atoi0
  cases hv : atoi t with
  | none => simp
  | some v => simpa using atoi_nonneg hmem hv

theorem atoiList_ok_mem {ts : List GoStr} {vs : List Int}
    (h : atoiList ts = .ok vs) : ∀ v ∈ vs, ∃ t ∈ ts, atoi t = some v := by
  induction ts generalizing vs with
  | nil =>
    unfold atoiList at h
    simp only [Except.ok.injEq] at h
    subst h
    simp
  | cons t ts ih =>
    unfold atoiList at h
    cases ha : atoi t with
    | none => rw [ha] at h; exact absurd h (by simp)
    | some w =>
      rw [ha] at h
      cases hl : atoiList ts with
      | error e => rw [hl] at h; exact absurd h (by simp)
      | ok ws =>
        rw [hl] at h
        simp only [Except.ok.injEq] at h
        subst h
        intro v hv
        rcases List.mem_cons.mp hv with rfl | hmem
        · exact ⟨t, List.mem_cons_self t ts, ha⟩
        · rcases ih hl v hmem with ⟨u, hu, hau⟩
          exact ⟨u, List.mem_cons_of_mem t hu, hau⟩

theorem nonneg_of_atoiList {ts : List GoStr} {vs : List Int}
    (hts : ∀ t ∈ ts, ('-' : Char) ∉ t) (h : atoiList ts = .ok vs) :
    ∀ v ∈ vs, 0 ≤ v := by
  intro v hv
  rcases atoiList_ok_mem h v hv with ⟨t, ht, hat⟩
  exact atoi_nonneg (hts t ht) hat

theorem atoiList_of_forall_isSome {ts : List GoStr}
    (h : ∀ t ∈ ts, (atoi t).isSome) : atoiList ts = .ok (ts.map atoi0) := by
  induction ts with
  | nil => rfl
  | cons t ts ih =>
    have ht : (atoi t).isSome := h t (List.mem_cons_self t ts)
    unfold atoiList
    cases ha : atoi t with
    | none => rw [ha] at ht; exact absurd ht (by simp)
    | some v =>
      rw [ih (fun u hu => h u (List.mem_cons_of_mem t hu))]
      simp [atoi0, ha]

theorem sortPair_comm (u v : Int) : sortPair u v = sortPair v u := by
  unfold sortPair
  split_ifs with h1 h2 h2 <;> simp_all <;> omega

theorem sortPair_fst_le_snd (u v : Int) :
    (sortPair u v).1 ≤ (sortPair u v).2 := by
  unfold sortPair
  split_ifs with h <;> simp <;> omega

theorem sortPair_fst_nonneg {u v : Int} (hu : 0 ≤ u) (hv : 0 ≤ v) :
    0 ≤ (sortPair u v).1 := by
  unfold sortPair
  split_ifs with h <;> simpa

/-! ### Nonnegativity of parsed regions, and Go division vs floor division -/

theorem fullsize8_nonneg {v0 v1 v2 v3 v4 v5 v6 v7 : Int}
    (h0 : 0 ≤ v0) (h1 : 0 ≤ v1) (h2 : 0 ≤ v2) (h3 : 0 ≤ v3)
    (h4 : 0 ≤ v4) (h5 : 0 ≤ v5) (h6 : 0 ≤ v6) (h7 : 0 ≤ v7) :
    0 ≤ (fullsize8 v0 v1 v2 v3 v4 v5 v6 v7).1 ∧
    0 ≤ (fullsize8 v0 v1 v2 v3 v4 v5 v6 v7).2.1 ∧
    0 ≤ (fullsize8 v0 v1 v2 v3 v4 v5 v6 v7).2.2.1 ∧
    0 ≤ (fullsize8 v0 v1 v2 v3 v4 v5 v6 v7).2.2.2 := by
  simp only [fullsize8, sortPair, TileSize]
  split_ifs <;> simp <;> omega

theorem parseFullsize_ok_nonneg {s : GoStr} {sx sy w hh : Int}
    (hok : parseFullsize s = .ok (sx, sy, w, hh)) :
    0 ≤ sx ∧ 0 ≤ sy ∧ 0 ≤ w ∧ 0 ≤ hh := by
  have htok : ∀ t ∈ splitChar s '-', ('-' : Char) ∉ t :=
    fun t ht => not_mem_of_mem_splitChar ht
  unfold parseFullsize at hok
  split at hok
  · rename_i p0 p1 p2 p3 p4 p5 heq
    split at hok
    · exact absurd hok (by simp)
    · rename_i vals hvals
      split at hok
      · rename_i v0 v1 v2 v3 v4 v5
        have hnn : ∀ v ∈ [v0, v1, v2, v3, v4, v5], 0 ≤ v :=
          nonneg_of_atoiList (heq ▸ htok) hvals
        have n0 : 0 ≤ v0 := hnn v0 (by simp)
        have n1 : 0 ≤ v1 := hnn v1 (by simp)
        have n2 : 0 ≤ v2 := hnn v2 (by simp)
        have n3 : 0 ≤ v3 := hnn v3 (by simp)
        have n4 : 0 ≤ v4 := hnn v4 (by simp)
        have n5 : 0 ≤ v5 := hnn v5 (by simp)
        simp only [Except.ok.injEq, Prod.mk.injEq, TileSize] at hok
        omega
      · exact absurd hok (by simp)
  · rename_i p0 p1 p2 p3 p4 p5 p6 p7 heq
    split at hok
    · exact absurd hok (by simp)
    · rename_i vals hvals
      split at hok
      · rename_i v0 v1 v2 v3 v4 v5 v6 v7
        have hnn : ∀ v ∈ [v0, v1, v2, v3, v4, v5, v6, v7], 0 ≤ v :=
          nonneg_of_atoiList (heq ▸ htok) hvals
        have hres := fullsize8_nonneg (hnn v0 (by simp)) (hnn v1 (by simp))
          (hnn v2 (by simp)) (hnn v3 (by simp)) (hnn v4 (by simp))
          (hnn v5 (by simp)) (hnn v6 (by simp)) (hnn v7 (by simp))
        simp only [Except.ok.injEq] at hok
        rw [hok] at hres
        simpa using hres
      · exact absurd hok (by simp)
  · exact absurd hok (by simp)

theorem parseTileRange_ok_bounds {s : GoStr} {x1 y1 x2 y2 : Int}
    (hok : parseTileRange s = .ok (x1, y1, x2, y2)) :
    0 ≤ x1 ∧ x1 ≤ x2 ∧ 0 ≤ y1 ∧ y1 ≤ y2 := by
  unfold parseTileRange at hok
  split at hok
  · rename_i part0 part1 heq
    split at hok
    · rename_i a0 a1 b0 b1 ha hb
      have hna0 : 0 ≤ atoi0 a0 := atoi0_nonneg
        (not_mem_of_mem_splitChar (ha ▸ (by simp : a0 ∈ ([a0, a1] : List GoStr))))
      have hna1 : 0 ≤ atoi0 a1 := atoi0_nonneg
        (not_mem_of_mem_splitChar (ha ▸ (by simp : a1 ∈ ([a0, a1] : List GoStr))))
      have hnb0 : 0 ≤ atoi0 b0 := atoi0_nonneg
        (not_mem_of_mem_splitChar (hb ▸ (by simp : b0 ∈ ([b0, b1] : List GoStr))))
      have hnb1 : 0 ≤ atoi0 b1 := atoi0_nonneg
        (not_mem_of_mem_splitChar (hb ▸ (by simp : b1 ∈ ([b0, b1] : List GoStr))))
      have hx := sortPair_fst_le_snd (atoi0 a0) (atoi0 b0)
      have hy := sortPair_fst_le_snd (atoi0 a1) (atoi0 b1)
      have hx0 := sortPair_fst_nonneg hna0 hnb0
      have hy0 := sortPair_fst_nonneg hna1 hnb1
      simp only [Except.ok.injEq, Prod.mk.injEq] at hok
      obtain ⟨e1, e2, e3, e4⟩ := hok
      subst e1; subst e2; subst e3; subst e4
      exact ⟨hx0, hx, hy0, hy⟩
    · exact absurd hok (by simp)
  · exact absurd hok (by simp)

theorem parseSingleTile_ok_nonneg {s : GoStr} {tx ty : Int}
    (hok : parseSingleTile s = .ok (tx, ty)) : 0 ≤ tx ∧ 0 ≤ ty := by
  unfold parseSingleTile at hok
  split at hok
  · rename_i t0 t1 heq
    have h0 : 0 ≤ atoi0 t0 := atoi0_nonneg
      (not_mem_of_mem_splitChar (heq ▸ (by simp : t0 ∈ ([t0, t1] : List GoStr))))
    have h1 : 0 ≤ atoi0 t1 := atoi0_nonneg
      (not_mem_of_mem_splitChar (heq ▸ (by simp : t1 ∈ ([t0, t1] : List GoStr))))
    simp only [Except.ok.injEq, Prod.mk.injEq] at hok
    obtain ⟨e1, e2⟩ := hok
    subst e1; subst e2
    exact ⟨h0, h1⟩
  · exact absurd hok (by simp)

theorem translateRegion_nonneg {inp : RegionInput} {r : Region}
    (hok : translateRegion inp = .ok r) :
    0 ≤ r.startX ∧ 0 ≤ r.startY ∧ 0 ≤ r.width ∧ 0 ≤ r.height := by
  obtain ⟨rsx, rsy, rw', rh⟩ := r
  cases inp with
  | fullsize s =>
    simp only [translateRegion] at hok
    split at hok
    · exact absurd hok (by simp)
    · rename_i sx sy w hh hp
      simp only [Except.ok.injEq, Region.mk.injEq] at hok
      obtain ⟨e1, e2, e3, e4⟩ := hok
      subst e1; subst e2; subst e3; subst e4
      exact parseFullsize_ok_nonneg hp
  | tileRange s =>
    simp only [translateRegion] at hok
    split at hok
    · exact absurd hok (by simp)
    · rename_i minTX minTY maxTX maxTY hp
      obtain ⟨h1, h2, h3, h4⟩ := parseTileRange_ok_bounds hp
      simp only [Except.ok.injEq, Region.mk.injEq, TileSize] at hok
      obtain ⟨e1, e2, e3, e4⟩ := hok
      subst e1; subst e2; subst e3; subst e4
      dsimp only
      refine ⟨by omega, by omega, by omega, by omega⟩
  | singleTile s =>
    simp only [translateRegion] at hok
    split at hok
    · exact absurd hok (by simp)
    · rename_i tx ty hp
      obtain ⟨h1, h2⟩ := parseSingleTile_ok_nonneg hp
      simp only [Except.ok.injEq, Region.mk.injEq, TileSize] at hok
      obtain ⟨e1, e2, e3, e4⟩ := hok
      subst e1; subst e2; subst e3; subst e4
      dsimp only
      refine ⟨by omega, by omega, by omega, by omega⟩

theorem goDiv_eq_fdiv {a b : Int} (ha : 0 ≤ a) (hb : 0 ≤ b) :
    goDiv a b = Int.fdiv a b := by
  obtain ⟨n, rfl⟩ := Int.eq_ofNat_of_zero_le ha
  obtain ⟨m, rfl⟩ := Int.eq_ofNat_of_zero_le hb
  unfold goDiv
  rw [← Int.ofNat_tdiv, Int.ofNat_fdiv]

theorem goDiv_le_goDiv {a b c : Int} (ha : 0 ≤ a) (hab : a ≤ b) (hc : 0 ≤ c) :
    goDiv a c ≤ goDiv b c := by
  obtain ⟨n, rfl⟩ := Int.eq_ofNat_of_zero_le ha
  obtain ⟨k, rfl⟩ := Int.eq_ofNat_of_zero_le (le_trans ha hab)
  obtain ⟨m, rfl⟩ := Int.eq_ofNat_of_zero_le hc
  unfold goDiv
  rw [← Int.ofNat_tdiv, ← Int.ofNat_tdiv]
  have : n ≤ k := by exact_mod_cast hab
  exact_mod_cast Nat.div_le_div_right this

/-! ### Helpers for destructuring token lists of known length -/

theorem list_len2 {α : Type} {l : List α} (h : l.length = 2) :
    ∃ x0 x1, l = [x0, x1] := by
  rcases l with _ | ⟨x0, _ | ⟨x1, _ | ⟨x2, t⟩⟩⟩
  · simp at h
  · simp at h
  · exact ⟨x0, x1, rfl⟩
  · simp at h

theorem list_len4 {α : Type} {l : List α} (h : l.length = 4) :
    ∃ x0 x1 x2 x3, l = [x0, x1, x2, x3] := by
  rcases l with _ | ⟨x0, _ | ⟨x1, _ | ⟨x2, _ | ⟨x3, _ | ⟨x4, t⟩⟩⟩⟩⟩
  · simp at h
  · simp at h
  · simp at h
  · simp at h
  · exact ⟨x0, x1, x2, x3, rfl⟩
  · simp at h

theorem fullsize8_swap (v0 v1 v2 v3 v4 v5 v6 v7 : Int) :
    fullsize8 v0 v1 v2 v3 v4 v5 v6 v7 = fullsize8 v4 v5 v6 v7 v0 v1 v2 v3 := by
  simp only [fullsize8]
  rw [sortPair_comm (v0 * TileSize + v2) (v4 * TileSize + v6),
      sortPair_comm (v1 * TileSize + v3) (v5 * TileSize + v7)]

/-! ### Claim C1 -/

/-- C1 (amended part): for every Region the Coordinate Translator produces
whose extent is positive, the derived inclusive tile-index range of `main`
(computed with Go's truncating integer division) coincides with the
mathematical floor-division range
`[floor(startX/TileSize)..floor((startX+width-1)/TileSize)]` (and likewise
for Y). The positivity hypotheses are forced by the counterexample: the
translator can produce zero-extent regions, on which truncation and floor
disagree. (Origins are always non-negative because `-` doubles as the field
separator, so the "negative origin" part of the claim is vacuous.) -/
theorem c1_tile_range_eq_floor (inp : RegionInput) (r : Region)
    (hok : translateRegion inp = .ok r) (hw : 0 < r.width) (hh : 0 < r.height) :
    tileRangeOf r =
      (Int.fdiv r.startX TileSize, Int.fdiv r.startY TileSize,
       Int.fdiv (r.startX + r.width - 1) TileSize,
       Int.fdiv (r.startY + r.height - 1) TileSize) := by
  obtain ⟨hsx, hsy, hw0, hh0⟩ := translateRegion_nonneg hok
  have hts : (0 : Int) ≤ TileSize := by decide
  unfold tileRangeOf
  rw [goDiv_eq_fdiv hsx hts, goDiv_eq_fdiv hsy hts,
      goDiv_eq_fdiv (by omega) hts, goDiv_eq_fdiv (by omega) hts]

/-- C1 witness: the single-tile region `3-4` at a concrete input. -/
theorem c1_witness :
    translateRegion (.singleTile "3-4".toList) = .ok ⟨3000, 4000, 1000, 1000⟩ ∧
    tileRangeOf ⟨3000, 4000, 1000, 1000⟩ =
      (Int.fdiv 3000 TileSize, Int.fdiv 4000 TileSize,
       Int.fdiv (3000 + 1000 - 1) TileSize, Int.fdiv (4000 + 1000 - 1) TileSize) :=
  ⟨by rfl, c1_tile_range_eq_floor (.singleTile "3-4".toList)
    ⟨3000, 4000, 1000, 1000⟩ (by rfl) (by decide) (by decide)⟩

/-- C1 counterexample: the translator accepts `0-0-0-0-0-0` (a zero-extent
region at the origin); there `main` computes `maxTileX = (0+0-1)/1000 = 0`
by truncation, while mathematical floor division gives `-1` — so the
claimed floor-division characterization fails for a produced Region. -/
theorem c1_counterexample :
    translateRegion (.fullsize "0-0-0-0-0-0".toList) = .ok ⟨0, 0, 0, 0⟩ ∧
    (tileRangeOf ⟨0, 0, 0, 0⟩).2.2.1 = 0 ∧
    Int.fdiv ((0 : Int) + 0 - 1) TileSize = -1 :=
  ⟨by rfl, by decide, by decide⟩

/-! ### Claim C5 -/

theorem translateRegion_tileRange_pos {s : GoStr} {r : Region}
    (hok : translateRegion (.tileRange s) = .ok r) :
    0 < r.width ∧ 0 < r.height := by
  obtain ⟨rsx, rsy, rw', rh⟩ := r
  simp only [translateRegion] at hok
  split at hok
  · exact absurd hok (by simp)
  · rename_i minTX minTY maxTX maxTY hp
    obtain ⟨h1, h2, h3, h4⟩ := parseTileRange_ok_bounds hp
    simp only [Except.ok.injEq, Region.mk.injEq, TileSize] at hok
    obtain ⟨e1, e2, e3, e4⟩ := hok
    subst e1; subst e2; subst e3; subst e4
    dsimp only
    refine ⟨by omega, by omega⟩

theorem translateRegion_singleTile_pos {s : GoStr} {r : Region}
    (hok : translateRegion (.singleTile s) = .ok r) :
    0 < r.width ∧ 0 < r.height := by
  obtain ⟨rsx, rsy, rw', rh⟩ := r
  simp only [translateRegion] at hok
  split at hok
  · exact absurd hok (by simp)
  · rename_i tx ty hp
    simp only [Except.ok.injEq, Region.mk.injEq, TileSize] at hok
    obtain ⟨e1, e2, e3, e4⟩ := hok
    subst e1; subst e2; subst e3; subst e4
    dsimp only
    refine ⟨by omega, by omega⟩

/-- C5 (amended): every Region the Coordinate Translator returns without an
error has non-negative origin and non-negative (not necessarily positive)
extent; whenever the extent is positive the derived tile range is non-empty;
and the tile-range and single-tile encodings always yield positive extent
(hence the full claimed invariant). The weakening from `width > 0` to
`width ≥ 0` for the fullsize encodings is forced by the counterexample:
`parseFullsize` takes width/height literally (6-token form) or as a corner
difference (8-token form) and never rejects zero. -/
theorem c5_region_invariant (inp : RegionInput) (r : Region)
    (hok : translateRegion inp = .ok r) :
    (0 ≤ r.startX ∧ 0 ≤ r.startY ∧ 0 ≤ r.width ∧ 0 ≤ r.height) ∧
    (0 < r.width → 0 < r.height →
      (tileRangeOf r).1 ≤ (tileRangeOf r).2.2.1 ∧
      (tileRangeOf r).2.1 ≤ (tileRangeOf r).2.2.2) ∧
    (∀ s, inp = .tileRange s ∨ inp = .singleTile s →
      0 < r.width ∧ 0 < r.height) := by
  obtain ⟨hsx, hsy, hw0, hh0⟩ := translateRegion_nonneg hok
  have hts : (0 : Int) ≤ TileSize := by decide
  refine ⟨⟨hsx, hsy, hw0, hh0⟩, ?_, ?_⟩
  · intro hw hh
    unfold tileRangeOf
    dsimp only
    exact ⟨goDiv_le_goDiv hsx (by omega) hts, goDiv_le_goDiv hsy (by omega) hts⟩
  · intro s hs
    rcases hs with rfl | rfl
    · exact translateRegion_tileRange_pos hok
    · exact translateRegion_singleTile_pos hok

/-- C5 witness: a concrete tile-range input. -/
theorem c5_witness :
    translateRegion (.tileRange "1818-806_1819-806".toList) =
      .ok ⟨1818000, 806000, 2000, 1000⟩ ∧
    (0 ≤ (1818000 : Int) ∧ 0 ≤ (806000 : Int) ∧ 0 ≤ (2000 : Int) ∧ 0 ≤ (1000 : Int)) ∧
    (tileRangeOf ⟨1818000, 806000, 2000, 1000⟩).1 ≤
      (tileRangeOf ⟨1818000, 806000, 2000, 1000⟩).2.2.1 :=
  ⟨by rfl,
   (c5_region_invariant (.tileRange "1818-806_1819-806".toList)
     ⟨1818000, 806000, 2000, 1000⟩ (by rfl)).1,
   ((c5_region_invariant (.tileRange "1818-806_1819-806".toList)
     ⟨1818000, 806000, 2000, 1000⟩ (by rfl)).2.1 (by decide) (by decide)).1⟩

/-- C5 counterexample: `0-0-0-0-0-0` parses without error into a Region
with `width = 0`, violating the claimed invariant `width > 0`; and
`1-0-0-0-0-5` parses into a Region whose derived X tile range
`[1..0]` is empty, violating the claimed non-empty-range invariant. -/
theorem c5_counterexample :
    translateRegion (.fullsize "0-0-0-0-0-0".toList) = .ok ⟨0, 0, 0, 0⟩ ∧
    translateRegion (.fullsize "1-0-0-0-0-5".toList) = .ok ⟨1000, 0, 0, 5⟩ ∧
    (tileRangeOf ⟨1000, 0, 0, 5⟩).1 = 1 ∧
    (tileRangeOf ⟨1000, 0, 0, 5⟩).2.2.1 = 0 :=
  ⟨by rfl, by rfl, by decide, by decide⟩

/-! ### Claim C8 -/

/-- C8: region parsing is corner-order invariant. For the Fullsize-8
encoding, a corner-point string `A-B` (each of `A`, `B` four dash-separated
numeric fields) parses to the same result as `B-A`; for the Tile-range
encoding, `A_B` and `B_A` (each point two dash-separated fields, `Atoi`
failures tolerated) parse to the same normalized inclusive range. -/
theorem c8_corner_order_invariance :
    (∀ a b : GoStr, (splitChar a '-').length = 4 → (splitChar b '-').length = 4 →
      (∀ t ∈ splitChar a '-', (atoi t).isSome) →
      (∀ t ∈ splitChar b '-', (atoi t).isSome) →
      parseFullsize (a ++ '-' :: b) = parseFullsize (b ++ '-' :: a)) ∧
    (∀ a b : GoStr, ('_' : Char) ∉ a → ('_' : Char) ∉ b →
      (splitChar a '-').length = 2 → (splitChar b '-').length = 2 →
      parseTileRange (a ++ '_' :: b) = parseTileRange (b ++ '_' :: a)) := by
  constructor
  · intro a b ha4 hb4 hia hib
    obtain ⟨a0, a1, a2, a3, ha⟩ := list_len4 ha4
    obtain ⟨b0, b1, b2, b3, hb⟩ := list_len4 hb4
    rw [ha] at hia
    rw [hb] at hib
    have hall : ∀ t ∈ ([a0, a1, a2, a3, b0, b1, b2, b3] : List GoStr),
        (atoi t).isSome := by
      have := List.forall_mem_append.mpr ⟨hia, hib⟩
      simpa using this
    have hall2 : ∀ t ∈ ([b0, b1, b2, b3, a0, a1, a2, a3] : List GoStr),
        (atoi t).isSome := by
      have := List.forall_mem_append.mpr ⟨hib, hia⟩
      simpa using this
    have hsab : splitChar (a ++ '-' :: b) '-' = [a0, a1, a2, a3, b0, b1, b2, b3] := by
      rw [splitChar_append, ha, hb]
      rfl
    have hsba : splitChar (b ++ '-' :: a) '-' = [b0, b1, b2, b3, a0, a1, a2, a3] := by
      rw [splitChar_append, ha, hb]
      rfl
    have hA : atoiList [a0, a1, a2, a3, b0, b1, b2, b3] =
        .ok [atoi0 a0, atoi0 a1, atoi0 a2, atoi0 a3,
             atoi0 b0, atoi0 b1, atoi0 b2, atoi0 b3] := by
      rw [atoiList_of_forall_isSome hall]
      rfl
    have hB : atoiList [b0, b1, b2, b3, a0, a1, a2, a3] =
        .ok [atoi0 b0, atoi0 b1, atoi0 b2, atoi0 b3,
             atoi0 a0, atoi0 a1, atoi0 a2, atoi0 a3] := by
      rw [atoiList_of_forall_isSome hall2]
      rfl
    have h1 : parseFullsize (a ++ '-' :: b) =
        .ok (fullsize8 (atoi0 a0) (atoi0 a1) (atoi0 a2) (atoi0 a3)
          (atoi0 b0) (atoi0 b1) (atoi0 b2) (atoi0 b3)) := by
      unfold parseFullsize
      rw [hsab]
      dsimp only
      rw [hA]
    have h2 : parseFullsize (b ++ '-' :: a) =
        .ok (fullsize8 (atoi0 b0) (atoi0 b1) (atoi0 b2) (atoi0 b3)
          (atoi0 a0) (atoi0 a1) (atoi0 a2) (atoi0 a3)) := by
      unfold parseFullsize
      rw [hsba]
      dsimp only
      rw [hB]
    rw [h1, h2, fullsize8_swap]
  · intro a b hna hnb ha2 hb2
    obtain ⟨a0, a1, ha⟩ := list_len2 ha2
    obtain ⟨b0, b1, hb⟩ := list_len2 hb2
    have hsab : splitChar (a ++ '_' :: b) '_' = [a, b] := by
      rw [splitChar_append, splitChar_of_not_mem hna, splitChar_of_not_mem hnb]
      rfl
    have hsba : splitChar (b ++ '_' :: a) '_' = [b, a] := by
      rw [splitChar_append, splitChar_of_not_mem hna, splitChar_of_not_mem hnb]
      rfl
    have h1 : parseTileRange (a ++ '_' :: b) =
        .ok ((sortPair (atoi0 a0) (atoi0 b0)).1, (sortPair (atoi0 a1) (atoi0 b1)).1,
             (sortPair (atoi0 a0) (atoi0 b0)).2, (sortPair (atoi0 a1) (atoi0 b1)).2) := by
      unfold parseTileRange
      rw [hsab]
      dsimp only
      rw [ha, hb]
    have h2 : parseTileRange (b ++ '_' :: a) =
        .ok ((sortPair (atoi0 b0) (atoi0 a0)).1, (sortPair (atoi0 b1) (atoi0 a1)).1,
             (sortPair (atoi0 b0) (atoi0 a0)).2, (sortPair (atoi0 b1) (atoi0 a1)).2) := by
      unfold parseTileRange
      rw [hsba]
      dsimp only
      rw [ha, hb]
    rw [h1, h2, sortPair_comm (atoi0 a0) (atoi0 b0), sortPair_comm (atoi0 a1) (atoi0 b1)]

/-- C8 witness: concrete corner-order swaps for both encodings. -/
theorem c8_witness :
    parseFullsize ("1-2-3-4".toList ++ '-' :: "5-6-7-8".toList) =
      parseFullsize ("5-6-7-8".toList ++ '-' :: "1-2-3-4".toList) ∧
    parseTileRange ("3-4".toList ++ '_' :: "1-2".toList) =
      parseTileRange ("1-2".toList ++ '_' :: "3-4".toList) :=
  ⟨c8_corner_order_invariance.1 "1-2-3-4".toList "5-6-7-8".toList
    (by decide) (by decide) (by decide) (by decide),
   c8_corner_order_invariance.2 "3-4".toList "1-2".toList
    (by decide) (by decide) (by decide) (by decide)⟩

/-! ### Claim C4 -/

/-- C4 (amended): wrong token counts and wrong separators in the region
encodings fail with an error that carries the offending input string (so no
Region is produced), but — contrary to the original claim — malformed
NUMERIC fields in the tile-range and single-tile encodings do NOT fail:
their `Atoi` errors are discarded and the field silently parses as 0
(`atoi0`), as the counterexample shows. Conjuncts: (1) tile-range with
token count ≠ 2 on `_` fails naming the input; (2) tile-range whose points
do not each split into 2 dash-fields fails naming the input; (3) single
tile with token count ≠ 2 fails naming the input; (4) fullsize with token
count neither 6 nor 8 fails naming the input; (5) a well-shaped single-tile
string always succeeds with `atoi0` values (no numeric validation); (6) a
well-shaped tile-range string always succeeds with `atoi0` values. -/
theorem c4_parse_error_policy :
    (∀ s : GoStr, (splitChar s '_').length ≠ 2 →
      parseTileRange s = .error (.invalidTileRangeFormat s)) ∧
    (∀ (s part0 part1 : GoStr), splitChar s '_' = [part0, part1] →
      ((splitChar part0 '-').length ≠ 2 ∨ (splitChar part1 '-').length ≠ 2) →
      parseTileRange s = .error (.invalidTileRangePoints s)) ∧
    (∀ s : GoStr, (splitChar s '-').length ≠ 2 →
      parseSingleTile s = .error (.invalidSingleTile s)) ∧
    (∀ s : GoStr, (splitChar s '-').length ≠ 6 → (splitChar s '-').length ≠ 8 →
      parseFullsize s = .error (.invalidFullsize s)) ∧
    (∀ (s t0 t1 : GoStr), splitChar s '-' = [t0, t1] →
      parseSingleTile s = .ok (atoi0 t0, atoi0 t1)) ∧
    (∀ (s part0 part1 a0 a1 b0 b1 : GoStr), splitChar s '_' = [part0, part1] →
      splitChar part0 '-' = [a0, a1] → splitChar part1 '-' = [b0, b1] →
      parseTileRange s =
        .ok ((sortPair (atoi0 a0) (atoi0 b0)).1, (sortPair (atoi0 a1) (atoi0 b1)).1,
             (sortPair (atoi0 a0) (atoi0 b0)).2, (sortPair (atoi0 a1) (atoi0 b1)).2)) := by
  refine ⟨?_, ?_, ?_, ?_, ?_, ?_⟩
  · intro s h
    unfold parseTileRange
    split
    · rename_i part0 part1 heq
      exact absurd (by rw [heq]; rfl) h
    · rfl
  · intro s part0 part1 hsp hlen
    unfold parseTileRange
    split
    · rename_i p0 p1 heq
      rw [hsp] at heq
      injection heq with e1 e2
      injection e2 with e2 _
      subst e1; subst e2
      split
      · rename_i a0 a1 b0 b1 hpa hpb
        rcases hlen with hl | hl
        · exact absurd (by rw [hpa]; rfl) hl
        · exact absurd (by rw [hpb]; rfl) hl
      · rfl
    · rename_i hne
      exact absurd hsp (hne part0 part1)
  · intro s h
    unfold parseSingleTile
    split
    · rename_i t0 t1 heq
      exact absurd (by rw [heq]; rfl) h
    · rfl
  · intro s h6 h8
    unfold parseFullsize
    split
    · rename_i p0 p1 p2 p3 p4 p5 heq
      exact absurd (by rw [heq]; rfl) h6
    · rename_i p0 p1 p2 p3 p4 p5 p6 p7 heq
      exact absurd (by rw [heq]; rfl) h8
    · rfl
  · intro s t0 t1 hsp
    unfold parseSingleTile
    split
    · rename_i u0 u1 heq
      rw [hsp] at heq
      injection heq with e1 e2
      injection e2 with e2 _
      subst e1; subst e2
      rfl
    · rename_i hne
      exact absurd hsp (hne t0 t1)
  · intro s part0 part1 a0 a1 b0 b1 hsp hpa hpb
    unfold parseTileRange
    split
    · rename_i p0 p1 heq
      rw [hsp] at heq
      injection heq with e1 e2
      injection e2 with e2 _
      subst e1; subst e2
      split
      · rename_i u0 u1 w0 w1 hqa hqb
        rw [hpa] at hqa
        rw [hpb] at hqb
        injection hqa with f1 f2
        injection f2 with f2 _
        injection hqb with g1 g2
        injection g2 with g2 _
        subst f1; subst f2; subst g1; subst g2
        rfl
      · rename_i hne
        exact (hne a0 a1 b0 b1 hpa hpb).elim
    · rename_i hne
      exact absurd hsp (hne part0 part1)

/-- C4 witness: concrete instances of each conjunct of the amended error
policy. -/
theorem c4_witness :
    parseTileRange "1-2".toList = .error (.invalidTileRangeFormat "1-2".toList) ∧
    parseTileRange "1-2-3_4-5".toList =
      .error (.invalidTileRangePoints "1-2-3_4-5".toList) ∧
    parseSingleTile "1-2-3".toList = .error (.invalidSingleTile "1-2-3".toList) ∧
    parseFullsize "1-2-3".toList = .error (.invalidFullsize "1-2-3".toList) ∧
    parseSingleTile "a-b".toList = .ok (atoi0 "a".toList, atoi0 "b".toList) ∧
    parseTileRange "1-a_2-3".toList =
      .ok ((sortPair (atoi0 "1".toList) (atoi0 "2".toList)).1,
           (sortPair (atoi0 "a".toList) (atoi0 "3".toList)).1,
           (sortPair (atoi0 "1".toList) (atoi0 "2".toList)).2,
           (sortPair (atoi0 "a".toList) (atoi0 "3".toList)).2) :=
  ⟨c4_parse_error_policy.1 "1-2".toList (by decide),
   c4_parse_error_policy.2.1 "1-2-3_4-5".toList "1-2-3".toList "4-5".toList
     (by decide) (by decide),
   c4_parse_error_policy.2.2.1 "1-2-3".toList (by decide),
   c4_parse_error_policy.2.2.2.1 "1-2-3".toList (by decide) (by decide),
   c4_parse_error_policy.2.2.2.2.1 "a-b".toList "a".toList "b".toList (by decide),
   c4_parse_error_policy.2.2.2.2.2 "1-a_2-3".toList "1-a".toList "2-3".toList
     "1".toList "a".toList "2".toList "3".toList (by decide) (by decide) (by decide)⟩

/-- C4 counterexample: the tile-range input `1-a_2-3` contains the
malformed numeric field `a`, yet parsing does not fail: it succeeds with
the malformed field replaced by 0, and the translator produces a Region
from it — refuting "parsing fails ... and no Region is produced". -/
theorem c4_counterexample :
    parseTileRange "1-a_2-3".toList = .ok (1, 0, 2, 3) ∧
    translateRegion (.tileRange "1-a_2-3".toList) = .ok ⟨1000, 0, 2000, 4000⟩ :=
  ⟨by rfl, by rfl⟩

/-! ### The gradient renderer (`getHeatColor`) and the normalization loop

`getHeatColor` works on `float64`. It is embedded over `ℚ` with exact
arithmetic: the branch thresholds (0.25, 0.5, 0.75) and the factor 255 are
exactly representable dyadic rationals, counter values are `uint32`
(< 2^53, so their conversion to `float64` is exact), and each claim below
is evaluated only at points where every intermediate IEEE operation is
exact, so the rational model agrees with the float computation there.
`uint8(math.Round(c))` is embedded as `qRound` (round half away from zero,
which for the non-negative channel values here is `⌊c + 1/2⌋`); the `uint8`
conversion is the identity on the in-range integral results (claim C10
proves the channels stay in `[0,255]`). Division by zero (`NaN`/`±Inf` in
Go) is unreachable in `main`'s use of the renderer — also proved in C10 —
and the `ℚ` convention `x/0 = 0` is never relied upon. -/

def qRound (x : ℚ) : ℤ := ⌊x + 1/2⌋

/-- The three float channel values `(r, g, b)` computed by `getHeatColor`
for a non-zero count: the fixed piecewise-linear gradient over
`ratio = val/max`. -/
def heatChannels (val max : ℕ) : ℚ × ℚ × ℚ :=
  let ratio : ℚ := (val : ℚ) / (max : ℚ)
  if ratio < 1/4 then
    (0, 0, ratio / (1/4) * 255)
  else if ratio < 1/2 then
    (0, (ratio - 1/4) / (1/4) * 255, 255 - (ratio - 1/4) / (1/4) * 255)
  else if ratio < 3/4 then
    ((ratio - 1/2) / (1/4) * 255, 255, 0)
  else
    (255, 255 - (ratio - 3/4) / (1/4) * 255, 0)

/-- `getHeatColor` from `src/main.go`: count 0 is opaque black, otherwise
the gradient channels rounded; alpha always 255. -/
def getHeatColor (val max : ℕ) : ℤ × ℤ × ℤ × ℤ :=
  if val = 0 then (0, 0, 0, 255)
  else
    let c := heatChannels val max
    (qRound c.1, qRound c.2.1, qRound c.2.2, 255)

/-- The `maxChanges` double loop of `main` (lines 385-392): the running
maximum of `changes[y][x]` over the grid, starting from 0. -/
def maxChanges (ch : ℕ → ℕ → ℕ) (width height : ℕ) : ℕ :=
  (List.range height).foldl
    (fun m y => (List.range width).foldl (fun m2 x => Nat.max m2 (ch y x)) m) 0

/-- The heatmap loop of `main` (lines 393-398): pixel `(x, y)` is
`getHeatColor changes[y][x] maxChanges`. -/
def renderHeatmap (ch : ℕ → ℕ → ℕ) (width height : ℕ) (x y : ℕ) :
    ℤ × ℤ × ℤ × ℤ :=
  getHeatColor (ch y x) (maxChanges ch width height)

theorem le_foldl_of_le_step {β : Type} (g : ℕ → β → ℕ) (hg : ∀ m b, m ≤ g m b) :
    ∀ (l : List β) (m : ℕ), m ≤ l.foldl g m := by
  intro l
  induction l with
  | nil => intro m; exact le_refl m
  | cons b l ih => intro m; exact le_trans (hg m b) (ih (g m b))

theorem le_foldl_of_mem {β : Type} (g : ℕ → β → ℕ) (hg : ∀ m b, m ≤ g m b)
    (v : ℕ) (b : β) (hv : ∀ m, v ≤ g m b) :
    ∀ (l : List β) (m : ℕ), b ∈ l → v ≤ l.foldl g m := by
  intro l
  induction l with
  | nil => intro m hb; exact absurd hb (by simp)
  | cons c l ih =>
    intro m hb
    rcases List.mem_cons.mp hb with rfl | hmem
    · exact le_trans (hv m) (le_foldl_of_le_step g hg l (g m b))
    · exact ih (g m c) hmem

theorem le_maxChanges (ch : ℕ → ℕ → ℕ) (width height : ℕ) {x y : ℕ}
    (hx : x < width) (hy : y < height) :
    ch y x ≤ maxChanges ch width height := by
  unfold maxChanges
  refine le_foldl_of_mem _ ?_ (ch y x) y ?_ (List.range height) 0 ?_
  · intro m b
    exact le_foldl_of_le_step _ (fun m2 x2 => Nat.le_max_left m2 (ch b x2))
      (List.range width) m
  · intro m
    exact le_foldl_of_mem _ (fun m2 x2 => Nat.le_max_left m2 (ch y x2)) (ch y x)
      x (fun m2 => Nat.le_max_right m2 (ch y x)) (List.range width) m
      (List.mem_range.mpr hx)
  · exact List.mem_range.mpr hy

theorem heatChannels_bounds {val max : ℕ}
    (h0 : 0 < (val : ℚ) / (max : ℚ)) (h1 : (val : ℚ) / (max : ℚ) ≤ 1) :
    0 ≤ (heatChannels val max).1 ∧ (heatChannels val max).1 ≤ 255 ∧
    0 ≤ (heatChannels val max).2.1 ∧ (heatChannels val max).2.1 ≤ 255 ∧
    0 ≤ (heatChannels val max).2.2 ∧ (heatChannels val max).2.2 ≤ 255 := by
  unfold heatChannels
  dsimp only
  split_ifs with hb1 hb2 hb3 <;>
    refine ⟨?_, ?_, ?_, ?_, ?_, ?_⟩ <;> dsimp only <;> linarith

/-! ### Claim C7 -/

/-- C7: `getHeatColor` maps count 0 to opaque black `(0,0,0,255)` no matter
what `maxCount` is; consequently, when `maxChanges = 0` every in-bounds
pixel of the rendered heatmap is opaque black (every count is then 0); and
for a non-zero count at ratio exactly 1/2, 3/4 and 1 it renders
`(0,255,0,255)`, `(255,255,0,255)` and `(255,0,0,255)` respectively —
always with fully opaque alpha. -/
theorem c7_gradient :
    (∀ max : ℕ, getHeatColor 0 max = (0, 0, 0, 255)) ∧
    (∀ (ch : ℕ → ℕ → ℕ) (width height : ℕ), maxChanges ch width height = 0 →
      ∀ x y, x < width → y < height →
        renderHeatmap ch width height x y = (0, 0, 0, 255)) ∧
    (∀ val max : ℕ, val ≠ 0 → (val : ℚ) / (max : ℚ) = 1/2 →
      getHeatColor val max = (0, 255, 0, 255)) ∧
    (∀ val max : ℕ, val ≠ 0 → (val : ℚ) / (max : ℚ) = 3/4 →
      getHeatColor val max = (255, 255, 0, 255)) ∧
    (∀ val max : ℕ, val ≠ 0 → (val : ℚ) / (max : ℚ) = 1 →
      getHeatColor val max = (255, 0, 0, 255)) := by
  refine ⟨?_, ?_, ?_, ?_, ?_⟩
  · intro max
    unfold getHeatColor
    simp
  · intro ch width height hmax x y hx hy
    have h0 : ch y x = 0 :=
      Nat.le_zero.mp (hmax ▸ le_maxChanges ch width height hx hy)
    unfold renderHeatmap getHeatColor
    rw [h0]
    simp
  · intro val max hval hr
    unfold getHeatColor
    rw [if_neg hval]
    unfold heatChannels
    dsimp only
    rw [hr]
    norm_num [qRound]
  · intro val max hval hr
    unfold getHeatColor
    rw [if_neg hval]
    unfold heatChannels
    dsimp only
    rw [hr]
    norm_num [qRound]
  · intro val max hval hr
    unfold getHeatColor
    rw [if_neg hval]
    unfold heatChannels
    dsimp only
    rw [hr]
    norm_num [qRound]

/-- C7 witness: concrete counts hitting count 0, the three exact ratios,
and an all-zero counter field. -/
theorem c7_witness :
    getHeatColor 0 7 = (0, 0, 0, 255) ∧
    getHeatColor 1 2 = (0, 255, 0, 255) ∧
    getHeatColor 3 4 = (255, 255, 0, 255) ∧
    getHeatColor 5 5 = (255, 0, 0, 255) ∧
    renderHeatmap (fun _ _ => 0) 1 1 0 0 = (0, 0, 0, 255) :=
  ⟨c7_gradient.1 7,
   c7_gradient.2.2.1 1 2 (by decide) (by norm_num),
   c7_gradient.2.2.2.1 3 4 (by decide) (by norm_num),
   c7_gradient.2.2.2.2 5 5 (by decide) (by norm_num),
   c7_gradient.2.1 (fun _ _ => 0) 1 1 (by decide) 0 0 (by decide) (by decide)⟩

/-! ### Claim C10 -/

/-- C10: in `main`'s rendering loop every counter passed to `getHeatColor`
is at most the computed global maximum `maxChanges`; hence for a non-zero
counter the divisor is non-zero, the ratio `val/max` lies in `(0, 1]`, and
all three computed channel values lie in `[0, 255]` before the 8-bit
conversion — the renderer never divides by zero and never produces an
out-of-range channel. -/
theorem c10_renderer_safety (ch : ℕ → ℕ → ℕ) (width height x y : ℕ)
    (hx : x < width) (hy : y < height) :
    ch y x ≤ maxChanges ch width height ∧
    (ch y x ≠ 0 →
      0 < maxChanges ch width height ∧
      0 < (ch y x : ℚ) / (maxChanges ch width height : ℚ) ∧
      (ch y x : ℚ) / (maxChanges ch width height : ℚ) ≤ 1 ∧
      (0 ≤ (heatChannels (ch y x) (maxChanges ch width height)).1 ∧
       (heatChannels (ch y x) (maxChanges ch width height)).1 ≤ 255 ∧
       0 ≤ (heatChannels (ch y x) (maxChanges ch width height)).2.1 ∧
       (heatChannels (ch y x) (maxChanges ch width height)).2.1 ≤ 255 ∧
       0 ≤ (heatChannels (ch y x) (maxChanges ch width height)).2.2 ∧
       (heatChannels (ch y x) (maxChanges ch width height)).2.2 ≤ 255)) := by
  have hle := le_maxChanges ch width height hx hy
  refine ⟨hle, ?_⟩
  intro hne
  have hv : 0 < ch y x := Nat.pos_of_ne_zero hne
  have hm : 0 < maxChanges ch width height := lt_of_lt_of_le hv hle
  have hvq : (0 : ℚ) < (ch y x : ℚ) := by exact_mod_cast hv
  have hmq : (0 : ℚ) < (maxChanges ch width height : ℚ) := by exact_mod_cast hm
  have h0 : 0 < (ch y x : ℚ) / (maxChanges ch width height : ℚ) :=
    div_pos hvq hmq
  have h1 : (ch y x : ℚ) / (maxChanges ch width height : ℚ) ≤ 1 :=
    (div_le_one hmq).mpr (by exact_mod_cast hle)
  exact ⟨hm, h0, h1, heatChannels_bounds h0 h1⟩

/-- C10 witness: a 1×1 all-ones counter field. -/
theorem c10_witness :
    ((0 : ℕ) < 1) ∧
    ((fun _ _ => 1 : ℕ → ℕ → ℕ) 0 0 ≤ maxChanges (fun _ _ => 1) 1 1) ∧
    maxChanges (fun _ _ => 1) 1 1 = 1 :=
  ⟨by decide,
   (c10_renderer_safety (fun _ _ => 1) 1 1 0 0 (by decide) (by decide)).1,
   by decide⟩

/-! ### Tile fetching, version resolution, canvas compositing, accumulation

The effectful part of `main` is embedded with an explicit `World` state:
- `cache` models the on-disk tile cache: `some img` iff a decodable cached
  file exists at the key's path (`os.Stat` + `os.Open` + `png.Decode` all
  succeeding); `none` covers both a missing and an undecodable file.
- `net` models the remote tile source as an immutable oracle: `some img`
  iff `http.Get` succeeds with status 200 and the body decodes; `none`
  covers transport errors, non-200 statuses and decode failures, which the
  code propagates identically.
- `persistOk` models whether the best-effort cache write
  (`os.MkdirAll` + `os.Create` + `png.Encode`) succeeds; on success the
  written file decodes back to the same image.
- `netLog` records every network access in order.
The cache directory is fixed for a run, so it is dropped from the key.
Images are total pixel functions (tiles have fixed 1000×1000 bounds);
pixels are 8-bit RGBA quadruples as stored in Go's `image.RGBA`, and
`rgba16` is the `color.RGBA.RGBA()` expansion `c * 0x101` to the 16-bit
premultiplied range that `draw` and `colorsEqual` compute with. -/

abbrev Pixel := ℕ × ℕ × ℕ × ℕ

abbrev Image := Int × Int → Pixel

/-- A cached tile is addressed by `{vStr}_{zoom}_{x}_{y}.png`; the same
four-tuple addresses the remote resource. -/
structure CacheKey where
  vStr : GoStr
  zoom : Int
  x : Int
  y : Int
deriving DecidableEq

inductive FetchErr where
  | httpOrDecode (key : CacheKey)
  | mergeFailed (version : GoStr)
deriving DecidableEq

structure World where
  cache : CacheKey → Option Image
  net : CacheKey → Option Image
  persistOk : Bool
  netLog : List CacheKey

def updateFn (f : CacheKey → Option Image) (k : CacheKey) (img : Image) :
    CacheKey → Option Image :=
  fun k2 => if k2 = k then some img else f k2

/-- `strings.HasPrefix(vStr, "v")` for the one-character marker. -/
def startsWithV (s : GoStr) : Bool :=
  match s with
  | c :: _ => c = 'v'
  | [] => false

/-- The version normalization at the top of `downloadRawTile`. -/
def normVersion (version : GoStr) : GoStr :=
  if startsWithV version then version else 'v' :: version

/-- `downloadRawTile` from `src/main.go`: cache hit returns the decoded
cached image with no network access; otherwise one network fetch, with a
best-effort cache write on success. -/
def downloadRawTile (w : World) (version : GoStr) (zoom x y : Int) :
    Except FetchErr Image × World :=
  let key : CacheKey := ⟨normVersion version, zoom, x, y⟩
  match w.cache key with
  | some img => (.ok img, w)
  | none =>
    match w.net key with
    | none => (.error (.httpOrDecode key), { w with netLog := w.netLog ++ [key] })
    | some img =>
      (.ok img,
       { w with
         cache := if w.persistOk then updateFn w.cache key img else w.cache,
         netLog := w.netLog ++ [key] })

/-- `color.RGBA.RGBA()`: expand an 8-bit channel to 16 bits. -/
def rgba16 (c : ℕ) : ℕ := c * 257

/-- One channel of Go's `draw.Over` into an `image.RGBA` destination:
`uint8((dr*(m-sa)/m + sr) >> 8)` on the 16-bit expanded values. -/
def overChan (d8 s8 sa8 : ℕ) : ℕ :=
  (rgba16 d8 * (65535 - rgba16 sa8) / 65535 + rgba16 s8) / 256

/-- Source-over compositing of one pixel (`src` over `dst`), per Go's
`draw.Draw(..., draw.Over)` arithmetic. -/
def overPixel (dst src : Pixel) : Pixel :=
  (overChan dst.1 src.1 src.2.2.2,
   overChan dst.2.1 src.2.1 src.2.2.2,
   overChan dst.2.2.1 src.2.2.1 src.2.2.2,
   overChan dst.2.2.2 src.2.2.2 src.2.2.2)

/-- The two `draw.Draw` calls of `downloadMergedTile`: copy the base
(`draw.Src` of an 8-bit image into a fresh RGBA is the identity), then
composite the diff over it pixel-for-pixel. -/
def mergeImages (base diff : Image) : Image :=
  fun p => overPixel (base p) (diff p)

/-- `strings.Split(version, ".")[0]` (the split is never empty). -/
def baseVersionOf (s : GoStr) : GoStr := (splitChar s '.').headD []

/-- `downloadMergedTile` from `src/main.go`: the Version Resolver. No `.`
separator delegates to `downloadRawTile` unchanged; otherwise base and diff
are fetched in that order and combined by availability. -/
def downloadMergedTile (w : World) (version : GoStr) (zoom x y : Int) :
    Except FetchErr Image × World :=
  if !version.contains '.' then downloadRawTile w version zoom x y
  else
    let r1 := downloadRawTile w (baseVersionOf version) zoom x y
    let r2 := downloadRawTile r1.2 version zoom x y
    match r1.1, r2.1 with
    | .error _, .error _ => (.error (.mergeFailed version), r2.2)
    | .ok b, .error _ => (.ok b, r2.2)
    | .error _, .ok d => (.ok d, r2.2)
    | .ok b, .ok d => (.ok (mergeImages b d), r2.2)

/-- Canvas: the per-version RGBA bitmap, as a total pixel function on
canvas coordinates (the loops of `main` only touch `[0,width)×[0,height)`).
`image.NewRGBA` zero-fills. -/
abbrev Canvas := Int × Int → Pixel

def canvas0 : Canvas := fun _ => (0, 0, 0, 0)

/-- `image.Rectangle` (half-open). -/
structure Rect where
  minX : Int
  minY : Int
  maxX : Int
  maxY : Int

/-- `Rect.Intersect` (the code only uses the result when non-empty, so the
Go normalization of an empty intersection to the zero rectangle is
irrelevant). -/
def Rect.inter (a b : Rect) : Rect :=
  ⟨max a.minX b.minX, max a.minY b.minY, min a.maxX b.maxX, min a.maxY b.maxY⟩

/-- `Rect.Empty`. -/
def Rect.isEmpty (r : Rect) : Bool := r.minX ≥ r.maxX || r.minY ≥ r.maxY

/-- The fixed parameters of one run of the version loop in `main`:
zoom level and the target Region. -/
structure RunParams where
  zoom : Int
  startAbsX : Int
  startAbsY : Int
  width : Int
  height : Int

/-- The per-tile blit of `main` lines 356-366: intersect the tile's
absolute rectangle with the target rectangle and, if non-empty, copy
(`draw.Src`, opaque overwrite) the intersecting pixels from the tile image
into the canvas at the corresponding destination offset. -/
def blitTile (p : RunParams) (canvas : Canvas) (img : Image) (tx ty : Int) :
    Canvas :=
  let tileRect : Rect :=
    ⟨tx * TileSize, ty * TileSize, (tx + 1) * TileSize, (ty + 1) * TileSize⟩
  let targetRect : Rect :=
    ⟨p.startAbsX, p.startAbsY, p.startAbsX + p.width, p.startAbsY + p.height⟩
  let inter := tileRect.inter targetRect
  if inter.isEmpty then canvas
  else
    let drawX := inter.minX - p.startAbsX
    let drawY := inter.minY - p.startAbsY
    let srcX := inter.minX - tx * TileSize
    let srcY := inter.minY - ty * TileSize
    let dx := inter.maxX - inter.minX
    let dy := inter.maxY - inter.minY
    fun q =>
      if drawX ≤ q.1 ∧ q.1 < drawX + dx ∧ drawY ≤ q.2 ∧ q.2 < drawY + dy then
        img (srcX + (q.1 - drawX), srcY + (q.2 - drawY))
      else canvas q

/-- The inclusive integer range `[lo..hi]` as a list. -/
def intRangeI (lo hi : Int) : List Int :=
  (List.range (hi + 1 - lo).toNat).map (fun i => lo + (i : Int))

/-- The tile iteration order of `main` lines 349-350: outer loop over
`tx`, inner loop over `ty`. -/
def tilesOf (minTX maxTX minTY maxTY : Int) : List (Int × Int) :=
  ((intRangeI minTX maxTX).map
    (fun tx => (intRangeI minTY maxTY).map (fun ty => (tx, ty)))).flatten

/-- The tile list `main` iterates for a run, with the bounds of lines
331-334. -/
def tileList (p : RunParams) : List (Int × Int) :=
  tilesOf (goDiv p.startAbsX TileSize) (goDiv (p.startAbsX + p.width - 1) TileSize)
          (goDiv p.startAbsY TileSize) (goDiv (p.startAbsY + p.height - 1) TileSize)

/-- The tile loop of `main` lines 349-369 for one version: resolve each
tile in order; on the first failure stop immediately (the `break` out of
both loops) with `versionValid = false`; otherwise blit and continue. Also
returns the list of tiles actually attempted, in order. -/
def buildTiles (p : RunParams) (v : GoStr) (w : World) :
    List (Int × Int) → Canvas → Canvas × Bool × World × List (Int × Int)
  | [], canvas => (canvas, true, w, [])
  | (tx, ty) :: rest, canvas =>
    match downloadMergedTile w v p.zoom tx ty with
    | (.error _, w2) => (canvas, false, w2, [(tx, ty)])
    | (.ok img, w2) =>
      let r := buildTiles p v w2 rest (blitTile p canvas img tx ty)
      (r.1, r.2.1, r.2.2.1, (tx, ty) :: r.2.2.2)

/-- `colorsEqual` from `src/main.go`: exact equality of the four 16-bit
expanded channels. -/
def colorsEqual (c1 c2 : Pixel) : Bool :=
  rgba16 c1.1 == rgba16 c2.1 && rgba16 c1.2.1 == rgba16 c2.2.1 &&
  rgba16 c1.2.2.1 == rgba16 c2.2.2.1 && rgba16 c1.2.2.2 == rgba16 c2.2.2.2

/-- The Change Accumulator's state across the version loop: the counter
grid (keyed by canvas coordinate `(x, y)`; `main` stores it as
`changes[y][x]`), the `prevCombined` slot and `successCount`. Counters are
`uint32` in Go; they are embedded as `ℕ` (one increment per version, so
overflow would need 2^32 versions). -/
structure AccState where
  changes : Int × Int → ℕ
  prev : Option Canvas
  successCount : ℕ

def initAcc : AccState := ⟨fun _ => 0, none, 0⟩

/-- The comparison loop of `main` lines 374-380: bump the counter at every
in-bounds pixel where the two canvases differ. -/
def bumpChanges (p : RunParams) (changes : Int × Int → ℕ) (cur prevC : Canvas) :
    Int × Int → ℕ :=
  fun q =>
    if 0 ≤ q.1 ∧ q.1 < p.width ∧ 0 ≤ q.2 ∧ q.2 < p.height ∧
        colorsEqual (cur q) (prevC q) = false then
      changes q + 1
    else changes q

/-- One iteration of the version loop of `main` lines 346-383: build the
canvas from a fresh zero canvas; on failure skip (`continue`) leaving the
accumulator untouched; on success bump `successCount`, compare against the
previous canvas when there is one, and replace it. -/
def stepVersion (p : RunParams) (w : World) (st : AccState) (v : GoStr) :
    World × AccState :=
  let r := buildTiles p v w (tileList p) canvas0
  if r.2.1 then
    (r.2.2.1,
     { changes :=
         match st.prev with
         | none => st.changes
         | some prevC => bumpChanges p st.changes r.1 prevC,
       prev := some r.1,
       successCount := st.successCount + 1 })
  else (r.2.2.1, st)

/-- The whole version loop. -/
def runVersions (p : RunParams) : World → AccState → List GoStr →
    World × AccState
  | w, st, [] => (w, st)
  | w, st, v :: vs =>
    let r := stepVersion p w st v
    runVersions p r.1 r.2 vs

/-! ### Claim C9 -/

/-- C9: if the cache holds a decodable file for the (normalized) key,
`downloadRawTile` returns that decoded image and leaves the world — in
particular the network-access log — untouched; and after a successful
fetch in a world where cache persistence succeeds, fetching the same key
again returns the same image and again leaves the world untouched (no
second network access). -/
theorem c9_cache_hit_no_network :
    (∀ (w : World) (version : GoStr) (zoom x y : Int) (img : Image),
      w.cache ⟨normVersion version, zoom, x, y⟩ = some img →
      downloadRawTile w version zoom x y = (.ok img, w)) ∧
    (∀ (w w2 : World) (version : GoStr) (zoom x y : Int) (img : Image),
      w.persistOk = true →
      downloadRawTile w version zoom x y = (.ok img, w2) →
      downloadRawTile w2 version zoom x y = (.ok img, w2)) := by
  constructor
  · intro w version zoom x y img hc
    unfold downloadRawTile
    dsimp only
    rw [hc]
  · intro w w2 version zoom x y img hp hfirst
    unfold downloadRawTile at hfirst ⊢
    dsimp only at hfirst ⊢
    cases hc : w.cache ⟨normVersion version, zoom, x, y⟩ with
    | some c =>
      rw [hc] at hfirst
      simp only [Prod.mk.injEq, Except.ok.injEq] at hfirst
      obtain ⟨h1, h2⟩ := hfirst
      subst h1
      subst h2
      rw [hc]
    | none =>
      rw [hc] at hfirst
      cases hn : w.net ⟨normVersion version, zoom, x, y⟩ with
      | none =>
        rw [hn] at hfirst
        exact absurd hfirst (by simp)
      | some i =>
        rw [hn] at hfirst
        simp only [Prod.mk.injEq, Except.ok.injEq] at hfirst
        obtain ⟨h1, h2⟩ := hfirst
        subst h1
        rw [← h2]
        simp only [hp, if_true, updateFn, if_pos rfl]

/-! ### Claim C3 -/

/-- C3: the Version Resolver follows the availability policy exactly. With
no `.` separator it returns the Tile Cache & Fetcher's result unchanged;
with a separator it fetches base (text before the first `.`) then diff
(the full identifier) and returns: an error naming the version when both
fail; the base image unchanged when only the diff fails; the diff image
unchanged when only the base fails; and the base with the diff
source-over-composited on top when both succeed. -/
theorem c3_version_resolution :
    (∀ (w : World) (version : GoStr) (zoom x y : Int),
      version.contains '.' = false →
      downloadMergedTile w version zoom x y = downloadRawTile w version zoom x y) ∧
    (∀ (w w1 w2 : World) (version : GoStr) (zoom x y : Int) (e1 e2 : FetchErr),
      version.contains '.' = true →
      downloadRawTile w (baseVersionOf version) zoom x y = (.error e1, w1) →
      downloadRawTile w1 version zoom x y = (.error e2, w2) →
      downloadMergedTile w version zoom x y = (.error (.mergeFailed version), w2)) ∧
    (∀ (w w1 w2 : World) (version : GoStr) (zoom x y : Int) (b : Image) (e2 : FetchErr),
      version.contains '.' = true →
      downloadRawTile w (baseVersionOf version) zoom x y = (.ok b, w1) →
      downloadRawTile w1 version zoom x y = (.error e2, w2) →
      downloadMergedTile w version zoom x y = (.ok b, w2)) ∧
    (∀ (w w1 w2 : World) (version : GoStr) (zoom x y : Int) (e1 : FetchErr) (d : Image),
      version.contains '.' = true →
      downloadRawTile w (baseVersionOf version) zoom x y = (.error e1, w1) →
      downloadRawTile w1 version zoom x y = (.ok d, w2) →
      downloadMergedTile w version zoom x y = (.ok d, w2)) ∧
    (∀ (w w1 w2 : World) (version : GoStr) (zoom x y : Int) (b d : Image),
      version.contains '.' = true →
      downloadRawTile w (baseVersionOf version) zoom x y = (.ok b, w1) →
      downloadRawTile w1 version zoom x y = (.ok d, w2) →
      downloadMergedTile w version zoom x y = (.ok (mergeImages b d), w2)) := by
  refine ⟨?_, ?_, ?_, ?_, ?_⟩
  · intro w version zoom x y hcont
    unfold downloadMergedTile
    rw [hcont]
    rfl
  · intro w w1 w2 version zoom x y e1 e2 hcont hbase hdiff
    unfold downloadMergedTile
    rw [hcont]
    dsimp only
    rw [hbase]
    dsimp only
    rw [hdiff]
    rfl
  · intro w w1 w2 version zoom x y b e2 hcont hbase hdiff
    unfold downloadMergedTile
    rw [hcont]
    dsimp only
    rw [hbase]
    dsimp only
    rw [hdiff]
    rfl
  · intro w w1 w2 version zoom x y e1 d hcont hbase hdiff
    unfold downloadMergedTile
    rw [hcont]
    dsimp only
    rw [hbase]
    dsimp only
    rw [hdiff]
    rfl
  · intro w w1 w2 version zoom x y b d hcont hbase hdiff
    unfold downloadMergedTile
    rw [hcont]
    dsimp only
    rw [hbase]
    dsimp only
    rw [hdiff]
    rfl

/-! ### Claim C2 -/

theorem buildTiles_nil (p : RunParams) (v : GoStr) (w : World) (c : Canvas) :
    buildTiles p v w [] c = (c, true, w, []) := rfl

theorem buildTiles_cons (p : RunParams) (v : GoStr) (w : World) (c : Canvas)
    (tx ty : Int) (rest : List (Int × Int)) :
    buildTiles p v w ((tx, ty) :: rest) c =
      (match downloadMergedTile w v p.zoom tx ty with
       | (.error _, w2) => (c, false, w2, [(tx, ty)])
       | (.ok img, w2) =>
         let r := buildTiles p v w2 rest (blitTile p c img tx ty)
         (r.1, r.2.1, r.2.2.1, (tx, ty) :: r.2.2.2)) := rfl

theorem buildTiles_cons_err (p : RunParams) (v : GoStr) (w : World)
    (c : Canvas) (tx ty : Int) (rest : List (Int × Int)) (e : FetchErr)
    (w2 : World) (hdm : downloadMergedTile w v p.zoom tx ty = (.error e, w2)) :
    buildTiles p v w ((tx, ty) :: rest) c = (c, false, w2, [(tx, ty)]) := by
  rw [buildTiles_cons, hdm]

theorem buildTiles_cons_ok (p : RunParams) (v : GoStr) (w : World)
    (c : Canvas) (tx ty : Int) (rest : List (Int × Int)) (img : Image)
    (w2 : World) (hdm : downloadMergedTile w v p.zoom tx ty = (.ok img, w2)) :
    buildTiles p v w ((tx, ty) :: rest) c =
      (let r := buildTiles p v w2 rest (blitTile p c img tx ty)
       (r.1, r.2.1, r.2.2.1, (tx, ty) :: r.2.2.2)) := by
  rw [buildTiles_cons, hdm]

theorem buildTiles_ok_processed (p : RunParams) (v : GoStr) :
    ∀ (l : List (Int × Int)) (w : World) (c : Canvas) {c1 : Canvas}
      {w1 : World} {proc : List (Int × Int)},
      buildTiles p v w l c = (c1, true, w1, proc) → proc = l := by
  intro l
  induction l with
  | nil =>
    intro w c c1 w1 proc h
    rw [buildTiles_nil] at h
    simp only [Prod.mk.injEq] at h
    exact h.2.2.2.symm
  | cons t rest ih =>
    intro w c c1 w1 proc h
    obtain ⟨tx, ty⟩ := t
    rcases hdm : downloadMergedTile w v p.zoom tx ty with ⟨res, w2⟩
    cases res with
    | error e =>
      rw [buildTiles_cons_err p v w c tx ty rest e w2 hdm] at h
      simp only [Prod.mk.injEq] at h
      exact absurd h.2.1 (by simp)
    | ok img =>
      rw [buildTiles_cons_ok p v w c tx ty rest img w2 hdm] at h
      rcases hr : buildTiles p v w2 rest (blitTile p c img tx ty) with
        ⟨c3, ok3, w3, proc3⟩
      rw [hr] at h
      simp only [Prod.mk.injEq] at h
      obtain ⟨_, hok, _, hproc⟩ := h
      have hrest : proc3 = rest := by
        apply ih w2 (blitTile p c img tx ty)
        rw [hr, hok]
      rw [← hproc, hrest]

theorem buildTiles_append (p : RunParams) (v : GoStr) :
    ∀ (l1 l2 : List (Int × Int)) (w : World) (c : Canvas),
      buildTiles p v w (l1 ++ l2) c =
        (let r := buildTiles p v w l1 c
         if r.2.1 then
           let s := buildTiles p v r.2.2.1 l2 r.1
           (s.1, s.2.1, s.2.2.1, r.2.2.2 ++ s.2.2.2)
         else r) := by
  intro l1
  induction l1 with
  | nil =>
    intro l2 w c
    rw [List.nil_append, buildTiles_nil]
    simp
  | cons t rest ih =>
    intro l2 w c
    obtain ⟨tx, ty⟩ := t
    rw [List.cons_append]
    rcases hdm : downloadMergedTile w v p.zoom tx ty with ⟨res, w2⟩
    cases res with
    | error e =>
      rw [buildTiles_cons_err p v w c tx ty (rest ++ l2) e w2 hdm,
          buildTiles_cons_err p v w c tx ty rest e w2 hdm]
      rfl
    | ok img =>
      rw [buildTiles_cons_ok p v w c tx ty (rest ++ l2) img w2 hdm,
          buildTiles_cons_ok p v w c tx ty rest img w2 hdm]
      dsimp only
      rw [ih l2 w2 (blitTile p c img tx ty)]
      rcases hr : buildTiles p v w2 rest (blitTile p c img tx ty) with
        ⟨c3, ok3, w3, proc3⟩
      cases ok3 <;> simp

/-- C2: canvas building is all-or-nothing. If, with every tile before
`(tx, ty)` in the iteration order resolving successfully, resolving
`(tx, ty)` fails, then the whole version build stops right there — the
attempted-tile list is exactly the prefix up to and including `(tx, ty)`,
the remaining tiles are never touched, `versionValid` is false — and the
accumulator step for that version leaves the state (counters, previous
canvas, success count) completely unchanged, so the partial canvas is
never compared or rendered. -/
theorem c2_all_or_nothing (p : RunParams) (w : World) (v : GoStr)
    (pre post : List (Int × Int)) (tx ty : Int)
    (c1 : Canvas) (w1 : World) (proc : List (Int × Int)) (e : FetchErr)
    (w2 : World)
    (hsplit : tileList p = pre ++ (tx, ty) :: post)
    (hpre : buildTiles p v w pre canvas0 = (c1, true, w1, proc))
    (hfail : downloadMergedTile w1 v p.zoom tx ty = (.error e, w2)) :
    buildTiles p v w (tileList p) canvas0 = (c1, false, w2, pre ++ [(tx, ty)]) ∧
    ∀ st : AccState, stepVersion p w st v = (w2, st) := by
  have hproc : proc = pre := buildTiles_ok_processed p v pre w canvas0 hpre
  rw [hproc] at hpre
  have hstep : buildTiles p v w1 ((tx, ty) :: post) c1 =
      (c1, false, w2, [(tx, ty)]) :=
    buildTiles_cons_err p v w1 c1 tx ty post e w2 hfail
  have hfull : buildTiles p v w (tileList p) canvas0 =
      (c1, false, w2, pre ++ [(tx, ty)]) := by
    rw [hsplit, buildTiles_append p v pre ((tx, ty) :: post) w canvas0, hpre]
    dsimp only
    rw [if_pos rfl, hstep]
  refine ⟨hfull, ?_⟩
  intro st
  unfold stepVersion
  rw [hfull]
  rfl

/-! ### Claim C6 -/

theorem stepVersion_eq (p : RunParams) (w : World) (st : AccState) (v : GoStr)
    {c : Canvas} {ok : Bool} {w2 : World} {proc : List (Int × Int)}
    (hb : buildTiles p v w (tileList p) canvas0 = (c, ok, w2, proc)) :
    stepVersion p w st v =
      (if ok then
        (w2, ⟨(match st.prev with
               | none => st.changes
               | some prevC => bumpChanges p st.changes c prevC),
          some c, st.successCount + 1⟩)
      else (w2, st)) := by
  unfold stepVersion
  rw [hb]

theorem bumpChanges_ge (p : RunParams) (ch : Int × Int → ℕ)
    (cur prevC : Canvas) (q : Int × Int) :
    ch q ≤ bumpChanges p ch cur prevC q := by
  unfold bumpChanges
  split <;> omega

theorem bumpChanges_le (p : RunParams) (ch : Int × Int → ℕ)
    (cur prevC : Canvas) (q : Int × Int) :
    bumpChanges p ch cur prevC q ≤ ch q + 1 := by
  unfold bumpChanges
  split <;> omega

theorem stepVersion_changes_mono (p : RunParams) (w : World) (st : AccState)
    (v : GoStr) (q : Int × Int) :
    st.changes q ≤ ((stepVersion p w st v).2).changes q := by
  rcases hb : buildTiles p v w (tileList p) canvas0 with ⟨c, ok, w2, proc⟩
  rw [stepVersion_eq p w st v hb]
  cases ok with
  | false => exact le_refl _
  | true =>
    cases hp : st.prev with
    | none => exact le_refl _
    | some prevC => exact bumpChanges_ge p st.changes c prevC q

theorem stepVersion_first_no_increment (p : RunParams) (w : World)
    (st : AccState) (v : GoStr) (hprev : st.prev = none) :
    ((stepVersion p w st v).2).changes = st.changes := by
  rcases hb : buildTiles p v w (tileList p) canvas0 with ⟨c, ok, w2, proc⟩
  rw [stepVersion_eq p w st v hb]
  cases ok with
  | false => rfl
  | true =>
    rw [hprev, if_pos rfl]

theorem runVersions_changes_mono (p : RunParams) :
    ∀ (versions : List GoStr) (w : World) (st : AccState) (q : Int × Int),
      st.changes q ≤ ((runVersions p w st versions).2).changes q := by
  intro versions
  induction versions with
  | nil => intro w st q; exact le_refl _
  | cons v vs ih =>
    intro w st q
    unfold runVersions
    exact le_trans (stepVersion_changes_mono p w st v q)
      (ih (stepVersion p w st v).1 (stepVersion p w st v).2 q)

/-- The accumulator invariant maintained across the version loop: each
pixel's counter plus one-if-a-previous-canvas-exists is at most the number
of successes, and a previous canvas exists as soon as there was a
success. -/
def accInv (st : AccState) : Prop :=
  (∀ q, st.changes q + (if st.prev.isSome then 1 else 0) ≤ st.successCount) ∧
  (1 ≤ st.successCount → st.prev.isSome)

theorem stepVersion_inv (p : RunParams) (w : World) (st : AccState)
    (v : GoStr) (h : accInv st) : accInv (stepVersion p w st v).2 := by
  rcases hb : buildTiles p v w (tileList p) canvas0 with ⟨c, ok, w2, proc⟩
  rw [stepVersion_eq p w st v hb]
  cases ok with
  | false => exact h
  | true =>
    rw [if_pos rfl]
    constructor
    · intro q
      have h1 := h.1 q
      cases hp : st.prev with
      | none =>
        rw [hp] at h1
        have h1a : st.changes q ≤ st.successCount := by simpa using h1
        show st.changes q + 1 ≤ st.successCount + 1
        omega
      | some prevC =>
        rw [hp] at h1
        have h1a : st.changes q + 1 ≤ st.successCount := by simpa using h1
        have h2 := bumpChanges_le p st.changes c prevC q
        show bumpChanges p st.changes c prevC q + 1 ≤ st.successCount + 1
        omega
    · intro _
      rfl

theorem runVersions_inv (p : RunParams) :
    ∀ (versions : List GoStr) (w : World) (st : AccState),
      accInv st → accInv (runVersions p w st versions).2 := by
  intro versions
  induction versions with
  | nil => intro w st h; exact h
  | cons v vs ih =>
    intro w st h
    unfold runVersions
    exact ih (stepVersion p w st v).1 (stepVersion p w st v).2
      (stepVersion_inv p w st v h)

theorem initAcc_inv : accInv initAcc := by
  constructor
  · intro q
    simp [initAcc]
  · intro h
    simp [initAcc] at h

/-- C6: per pixel, the counter never decreases under one version step nor
across any run of the version loop; after a whole run starting from the
zero-filled initial state, each pixel's counter is at most
`successCount - 1` (truncated at 0); and when there is no previous canvas
yet (the first successfully built canvas), the step performs no comparison
and leaves every counter unchanged. -/
theorem c6_counter_monotone_bounded :
    (∀ (p : RunParams) (w : World) (st : AccState) (v : GoStr) (q : Int × Int),
      st.changes q ≤ ((stepVersion p w st v).2).changes q) ∧
    (∀ (p : RunParams) (w : World) (st : AccState) (versions : List GoStr)
        (q : Int × Int),
      st.changes q ≤ ((runVersions p w st versions).2).changes q) ∧
    (∀ (p : RunParams) (w : World) (versions : List GoStr) (q : Int × Int),
      ((runVersions p w initAcc versions).2).changes q ≤
        ((runVersions p w initAcc versions).2).successCount - 1) ∧
    (∀ (p : RunParams) (w : World) (st : AccState) (v : GoStr),
      st.prev = none → ((stepVersion p w st v).2).changes = st.changes) := by
  refine ⟨stepVersion_changes_mono,
          fun p w st versions q => runVersions_changes_mono p versions w st q,
          ?_, stepVersion_first_no_increment⟩
  intro p w versions q
  obtain ⟨h1, h2⟩ := runVersions_inv p versions w initAcc initAcc_inv
  have hq := h1 q
  cases hp : ((runVersions p w initAcc versions).2).prev with
  | some c =>
    rw [hp] at hq
    simp only [Option.isSome_some, if_true] at hq
    omega
  | none =>
    rw [hp] at hq
    simp only [Option.isSome_none] at hq
    have hs : ¬ 1 ≤ ((runVersions p w initAcc versions).2).successCount := by
      intro hs
      have := h2 hs
      rw [hp] at this
      simp at this
    omega

/-! ### Concrete worlds and inputs for the witnesses -/

def wEmpty : World := ⟨fun _ => none, fun _ => none, true, []⟩

def p0 : RunParams := ⟨11, 0, 0, 1, 1⟩

def vA : GoStr := ['a']

def vD : GoStr := ['1', '.', '2']

def imgConst (n : ℕ) : Image := fun _ => (n, n, n, 255)

def kA : CacheKey := ⟨['v', 'a'], 11, 0, 0⟩

def kBase : CacheKey := ⟨['v', '1'], 11, 0, 0⟩

def kDiff : CacheKey := ⟨['v', '1', '.', '2'], 11, 0, 0⟩

def wFail : World := ⟨fun _ => none, fun _ => none, true, [kA]⟩

/-- C2 witness: a 1×1 region whose single tile fails to resolve (empty
cache, dead network): the build is invalid after attempting exactly that
tile, and the accumulator state is unchanged. -/
theorem c2_witness :
    buildTiles p0 vA wEmpty (tileList p0) canvas0 =
      (canvas0, false, wFail, [] ++ [((0 : Int), (0 : Int))]) ∧
    stepVersion p0 wEmpty initAcc vA = (wFail, initAcc) :=
  have h := c2_all_or_nothing p0 wEmpty vA [] [] 0 0 canvas0 wEmpty []
    (.httpOrDecode kA) wFail rfl rfl rfl
  ⟨h.1, h.2 initAcc⟩

def wCached : World :=
  ⟨fun k => if k = kA then some (imgConst 7) else none, fun _ => none, true, []⟩

def wNet : World :=
  ⟨fun _ => none, fun k => if k = kA then some (imgConst 8) else none, true, []⟩

def wNet2 : World :=
  ⟨updateFn wNet.cache kA (imgConst 8), wNet.net, true, [kA]⟩

/-- C9 witness: a cache hit returns the cached image with the world (and
its network log) unchanged; after one successful persisted network fetch,
the second fetch of the same key changes nothing. -/
theorem c9_witness :
    downloadRawTile wCached vA 11 0 0 = (.ok (imgConst 7), wCached) ∧
    downloadRawTile wNet2 vA 11 0 0 = (.ok (imgConst 8), wNet2) :=
  ⟨c9_cache_hit_no_network.1 wCached vA 11 0 0 (imgConst 7) rfl,
   c9_cache_hit_no_network.2 wNet wNet2 vA 11 0 0 (imgConst 8) rfl rfl⟩

def wEmptyF : World := ⟨fun _ => none, fun _ => none, false, []⟩

def wB : World :=
  ⟨fun _ => none, fun k => if k = kBase then some (imgConst 1) else none,
   false, []⟩

def wD : World :=
  ⟨fun _ => none, fun k => if k = kDiff then some (imgConst 2) else none,
   false, []⟩

def wBoth : World :=
  ⟨fun _ => none,
   fun k => if k = kBase then some (imgConst 1)
            else if k = kDiff then some (imgConst 2) else none,
   false, []⟩

/-- C3 witness: the five availability cases at the compound version
`1.2` (base `1`, diff `1.2`) and the plain version `a`. -/
theorem c3_witness :
    downloadMergedTile wEmptyF vA 11 0 0 = downloadRawTile wEmptyF vA 11 0 0 ∧
    downloadMergedTile wEmptyF vD 11 0 0 =
      (.error (.mergeFailed vD), { wEmptyF with netLog := [kBase, kDiff] }) ∧
    downloadMergedTile wB vD 11 0 0 =
      (.ok (imgConst 1), { wB with netLog := [kBase, kDiff] }) ∧
    downloadMergedTile wD vD 11 0 0 =
      (.ok (imgConst 2), { wD with netLog := [kBase, kDiff] }) ∧
    downloadMergedTile wBoth vD 11 0 0 =
      (.ok (mergeImages (imgConst 1) (imgConst 2)),
       { wBoth with netLog := [kBase, kDiff] }) :=
  ⟨c3_version_resolution.1 wEmptyF vA 11 0 0 (by decide),
   c3_version_resolution.2.1 wEmptyF _ _ vD 11 0 0 _ _ (by decide) rfl rfl,
   c3_version_resolution.2.2.1 wB _ _ vD 11 0 0 _ _ (by decide) rfl rfl,
   c3_version_resolution.2.2.2.1 wD _ _ vD 11 0 0 _ _ (by decide) rfl rfl,
   c3_version_resolution.2.2.2.2 wBoth _ _ vD 11 0 0 _ _ (by decide) rfl rfl⟩

/-- C6 witness: the counter properties at a concrete failing run. -/
theorem c6_witness :
    initAcc.changes (0, 0) ≤ ((stepVersion p0 wEmpty initAcc vA).2).changes (0, 0) ∧
    initAcc.changes (0, 0) ≤ ((runVersions p0 wEmpty initAcc [vA]).2).changes (0, 0) ∧
    ((runVersions p0 wEmpty initAcc [vA]).2).changes (0, 0) ≤
      ((runVersions p0 wEmpty initAcc [vA]).2).successCount - 1 ∧
    ((stepVersion p0 wEmpty initAcc vA).2).changes = initAcc.changes :=
  ⟨c6_counter_monotone_bounded.1 p0 wEmpty initAcc vA (0, 0),
   c6_counter_monotone_bounded.2.1 p0 wEmpty initAcc [vA] (0, 0),
   c6_counter_monotone_bounded.2.2.1 p0 wEmpty [vA] (0, 0),
   c6_counter_monotone_bounded.2.2.2 p0 wEmpty initAcc vA rfl⟩
